import Mathlib

/-!
Shallow embedding of the jsontoneo loader (main.go, plus the earlier
variant in the repository).  The program reads newline-delimited JSON
scan records and, per record, runs one write transaction against a
Neo4j graph consisting of four parameterized Cypher upsert statements
(hostQuery, ipQuery, techQuery, asnQuery in the source).

The graph store is modelled explicitly: node sets are lists keyed by
the identifying attribute (Cypher MERGE on a key pattern matches every
node with that key, creates the node when none matches; SET overwrites
the listed attributes on every matched node), and relationships are
lists of endpoint-key pairs (MERGE on a relationship pattern creates
the edge only when it is absent).  Machine integers of the Go structs
(status_code, words, lines) are modelled as Int; their values pass
through the mapper unmodified, so no overflow arises.
-/

namespace JsonToNeo

/-- The nested ASN struct of the Go source (json tags as_number,
as_name, as_country, as_range). -/
structure ASN where
  ASNumber : String
  ASName : String
  ASCountry : String
  ASRange : List String
deriving DecidableEq, Repr

/-- One decoded input line, the HttpxResult struct of the Go source.
Field names follow the source; Host holds the IP address. -/
structure HttpxResult where
  Timestamp : String
  asn : ASN
  Port : String
  URL : String
  Input : String
  Title : String
  Scheme : String
  Webserver : String
  Tech : List String
  Host : String
  Status : Int
  Words : Int
  Lines : Int
  Resolvers : List String
deriving DecidableEq, Repr

/-- The scalar attributes a Host node carries after the hostQuery SET
clause in main.go (the MERGE key url is kept separately). -/
structure HostProps where
  input : String
  port : String
  title : String
  scheme : String
  webserver : String
  status : Int
  words : Int
  lines : Int
deriving DecidableEq, Repr

/-- Attributes of an ASN node set by the asnQuery SET clause
(the MERGE key number is kept separately). -/
structure AsnProps where
  name : String
  country : String
deriving DecidableEq, Repr

/-- The graph store state: nodes keyed by their identifying attribute
and relationships as endpoint-key pairs. -/
@[ext]
structure Graph where
  hosts : List (String × HostProps)
  ips : List String
  techs : List String
  asns : List (String × AsnProps)
  resolvesTo : List (String × String)
  uses : List (String × String)
  belongsTo : List (String × String)
deriving DecidableEq, Repr

/-- MERGE on a relationship or keyless node pattern: create the element
only when it is absent, otherwise leave the list unchanged. -/
def insertNew {α : Type} [DecidableEq α] (x : α) (l : List α) : List α :=
  if x ∈ l then l else l ++ [x]

/-- Replace the value at every entry with the given key. -/
def mapReplace {α β : Type} [DecidableEq α] (k : α) (v : β)
    (l : List (α × β)) : List (α × β) :=
  l.map fun p => if p.1 = k then (k, v) else p

/-- MERGE on a keyed node pattern followed by SET of all modelled
attributes: when some entry has the key, SET overwrites the attributes
of every matched entry; otherwise the node is created. -/
def upsertAssoc {α β : Type} [DecidableEq α] (k : α) (v : β)
    (l : List (α × β)) : List (α × β) :=
  if k ∈ l.map Prod.fst then mapReplace k v l else l ++ [(k, v)]

/-- Attribute lookup of the first node with the given key. -/
def lookupKey {α β : Type} [DecidableEq α] (k : α)
    (l : List (α × β)) : Option β :=
  (l.find? fun p => decide (p.1 = k)).map Prod.snd

/-- Iterated insertNew, the accumulated effect of a loop of MERGE
statements over a list of values. -/
def insertAll {α : Type} [DecidableEq α] (xs l : List α) : List α :=
  xs.foldl (fun acc x => insertNew x acc) l

section Helpers

variable {α β : Type} [DecidableEq α]

theorem mem_insertNew_self (x : α) (l : List α) : x ∈ insertNew x l := by
  by_cases h : x ∈ l <;> simp [insertNew, h]

theorem mem_insertNew_of_mem {y : α} {l : List α} (x : α) (h : y ∈ l) :
    y ∈ insertNew x l := by
  by_cases hx : x ∈ l <;> simp [insertNew, hx, h]

theorem insertNew_eq_of_mem {x : α} {l : List α} (h : x ∈ l) :
    insertNew x l = l := by
  simp [insertNew, h]

theorem insertNew_idem (x : α) (l : List α) :
    insertNew x (insertNew x l) = insertNew x l :=
  insertNew_eq_of_mem (mem_insertNew_self x l)

theorem insertNew_nodup {l : List α} (x : α) (h : l.Nodup) :
    (insertNew x l).Nodup := by
  by_cases hx : x ∈ l
  · simpa [insertNew, hx] using h
  · simp only [insertNew, hx, if_false]
    exact List.Nodup.append h (List.nodup_singleton x) (by simpa using hx)

theorem mem_insertAll_of_mem {y : α} {l : List α} (xs : List α) (h : y ∈ l) :
    y ∈ insertAll xs l := by
  induction xs generalizing l with
  | nil => simpa [insertAll] using h
  | cons x xs ih =>
      simpa [insertAll] using ih (mem_insertNew_of_mem x h)

theorem mem_insertAll_of_mem_left {x : α} {xs : List α} (l : List α)
    (h : x ∈ xs) : x ∈ insertAll xs l := by
  induction xs generalizing l with
  | nil => cases h
  | cons y ys ih =>
      rcases List.mem_cons.mp h with rfl | hx
      · simpa [insertAll] using
          mem_insertAll_of_mem ys (mem_insertNew_self x l)
      · simpa [insertAll] using ih (insertNew y l) hx

theorem insertAll_eq_of_forall_mem {xs l : List α}
    (h : ∀ x ∈ xs, x ∈ l) : insertAll xs l = l := by
  induction xs with
  | nil => rfl
  | cons x ys ih =>
      have hx : insertNew x l = l := insertNew_eq_of_mem (h x (by simp))
      simpa [insertAll, hx] using ih fun y hy => h y (by simp [hy])

theorem insertAll_idem (xs l : List α) :
    insertAll xs (insertAll xs l) = insertAll xs l :=
  insertAll_eq_of_forall_mem fun _ hx => mem_insertAll_of_mem_left l hx

theorem insertAll_nodup {l : List α} (xs : List α) (h : l.Nodup) :
    (insertAll xs l).Nodup := by
  induction xs generalizing l with
  | nil => simpa [insertAll] using h
  | cons x ys ih => simpa [insertAll] using ih (insertNew_nodup x h)

theorem mem_map_fst_upsertAssoc (k : α) (v : β) (l : List (α × β)) :
    k ∈ (upsertAssoc k v l).map Prod.fst := by
  by_cases h : k ∈ l.map Prod.fst
  · simp only [upsertAssoc, h, if_true]
    rcases List.mem_map.mp h with ⟨p, hp, hk⟩
    exact List.mem_map.mpr ⟨(k, v), List.mem_map.mpr ⟨p, hp, by simp [hk]⟩, rfl⟩
  · simp [upsertAssoc, h, mapReplace]

theorem mapReplace_eq_of_not_mem {k : α} {l : List (α × β)} (v : β)
    (h : k ∉ l.map Prod.fst) : mapReplace k v l = l := by
  induction l with
  | nil => rfl
  | cons p t ih =>
      have hp : ¬ p.1 = k := fun hk => h (by simp [hk])
      have ht : k ∉ t.map Prod.fst := fun hk => h (by simp [hk])
      show (if p.1 = k then (k, v) else p) :: mapReplace k v t = p :: t
      rw [if_neg hp, ih ht]

theorem mapReplace_append (k : α) (v : β) (l₁ l₂ : List (α × β)) :
    mapReplace k v (l₁ ++ l₂) = mapReplace k v l₁ ++ mapReplace k v l₂ :=
  List.map_append _ l₁ l₂

theorem mapReplace_single (k : α) (v : β) :
    mapReplace k v [(k, v)] = [(k, v)] := by
  simp [mapReplace]

theorem mapReplace_mapReplace (k : α) (v : β) (l : List (α × β)) :
    mapReplace k v (mapReplace k v l) = mapReplace k v l := by
  induction l with
  | nil => rfl
  | cons p t ih =>
      by_cases h : p.1 = k <;> simp [mapReplace, h] at ih ⊢ <;> exact ih

theorem upsertAssoc_idem (k : α) (v : β) (l : List (α × β)) :
    upsertAssoc k v (upsertAssoc k v l) = upsertAssoc k v l := by
  have hmem := mem_map_fst_upsertAssoc k v l
  by_cases h : k ∈ l.map Prod.fst
  · simp only [upsertAssoc, h, if_true] at hmem ⊢
    simp [upsertAssoc, hmem, mapReplace_mapReplace]
  · simp only [upsertAssoc, h, if_false] at hmem ⊢
    simp only [upsertAssoc, hmem, if_true]
    rw [mapReplace_append, mapReplace_eq_of_not_mem v h, mapReplace_single]

theorem lookupKey_mapReplace_of_mem {k : α} {l : List (α × β)} (v : β)
    (h : k ∈ l.map Prod.fst) : lookupKey k (mapReplace k v l) = some v := by
  induction l with
  | nil => simp at h
  | cons p t ih =>
      by_cases hp : p.1 = k
      · simp [lookupKey, mapReplace, hp]
      · simp only [List.map_cons, List.mem_cons] at h
        rcases h with h | h
        · exact absurd h.symm hp
        · simpa [lookupKey, mapReplace, hp] using ih h

theorem lookupKey_append_of_not_mem {k : α} {l : List (α × β)} (v : β)
    (h : k ∉ l.map Prod.fst) : lookupKey k (l ++ [(k, v)]) = some v := by
  induction l with
  | nil => simp [lookupKey]
  | cons p t ih =>
      simp only [List.map_cons, List.mem_cons, not_or] at h
      have hp : ¬ p.1 = k := fun hk => h.1 hk.symm
      simpa [lookupKey, hp] using ih h.2

theorem lookupKey_upsertAssoc_self (k : α) (v : β) (l : List (α × β)) :
    lookupKey k (upsertAssoc k v l) = some v := by
  by_cases h : k ∈ l.map Prod.fst
  · simpa [upsertAssoc, h] using lookupKey_mapReplace_of_mem v h
  · simpa [upsertAssoc, h] using lookupKey_append_of_not_mem v h

theorem mem_upsertAssoc_self (k : α) (v : β) (l : List (α × β)) :
    (k, v) ∈ upsertAssoc k v l := by
  by_cases h : k ∈ l.map Prod.fst
  · simp only [upsertAssoc, h, if_true, mapReplace]
    rcases List.mem_map.mp h with ⟨p, hp, hk⟩
    exact List.mem_map.mpr ⟨p, hp, by simp [hk]⟩
  · simp [upsertAssoc, h]

end Helpers

theorem count_eq_one_of_nodup_mem {α : Type} [BEq α] [LawfulBEq α]
    {l : List α} {a : α} (hn : l.Nodup) (h : a ∈ l) : l.count a = 1 := by
  induction l with
  | nil => cases h
  | cons x t ih =>
      rcases List.mem_cons.mp h with rfl | h2
      · have hx : a ∉ t := (List.nodup_cons.mp hn).1
        simp [List.count_cons, List.count_eq_zero.mpr hx]
      · have hxt := (List.nodup_cons.mp hn).1
        have hne : a ≠ x := fun he => hxt (he ▸ h2)
        have hc := ih (List.nodup_cons.mp hn).2 h2
        simp [List.count_cons, hc, hne]

/-- The scalar attribute values the hostQuery SET clause writes for a
record, in the order of the query text. -/
def hostProps (r : HttpxResult) : HostProps :=
  ⟨r.Input, r.Port, r.Title, r.Scheme, r.Webserver, r.Status, r.Words, r.Lines⟩

/-- The property names listed in the hostQuery SET clause of main.go,
transcribed from the query text. -/
def hostQuerySetKeys : List String :=
  ["input", "port", "title", "scheme", "webserver", "status", "words", "lines"]

/-- Effect of hostQuery (main.go): MERGE the Host node keyed by url,
then SET all eight scalar attributes from the record. -/
def hostQuery (r : HttpxResult) (g : Graph) : Graph :=
  { g with hosts := upsertAssoc r.URL (hostProps r) g.hosts }

/-- Effect of ipQuery (main.go): MATCH the Host node by url (it exists,
upserted by hostQuery in the same transaction), MERGE the IP node keyed
by the address (the record Host field) and MERGE the RESOLVES_TO edge.
The MATCH clause itself writes nothing. -/
def ipQuery (r : HttpxResult) (g : Graph) : Graph :=
  { g with ips := insertNew r.Host g.ips
         , resolvesTo := insertNew (r.URL, r.Host) g.resolvesTo }

/-- Effect of one techQuery (main.go): MATCH the Host node by url,
MERGE the Tech node keyed by name and MERGE the USES edge. -/
def techQuery (url tech : String) (g : Graph) : Graph :=
  { g with techs := insertNew tech g.techs
         , uses := insertNew (url, tech) g.uses }

/-- The for-loop over the record technology list, running techQuery per
entry in list order with no deduplication pass. -/
def techLoop (url : String) (ts : List String) (g : Graph) : Graph :=
  ts.foldl (fun g t => techQuery url t g) g

/-- Effect of asnQuery (main.go): MATCH the Host node by url, MERGE the
ASN node keyed by number, SET its name and country, MERGE the
BELONGS_TO edge.  Only run when the AS number is non-empty. -/
def asnQuery (r : HttpxResult) (g : Graph) : Graph :=
  { g with asns := upsertAssoc r.asn.ASNumber
                     ⟨r.asn.ASName, r.asn.ASCountry⟩ g.asns
         , belongsTo := insertNew (r.URL, r.asn.ASNumber) g.belongsTo }

/-- The body of session.WriteTransaction in main.go with every tx.Run
call succeeding: hostQuery, ipQuery, the techQuery loop, and asnQuery
guarded by the AS number being non-empty. -/
def processRecord (r : HttpxResult) (g : Graph) : Graph :=
  let g1 := hostQuery r g
  let g2 := ipQuery r g1
  let g3 := techLoop r.URL r.Tech g2
  if r.asn.ASNumber ≠ "" then asnQuery r g3 else g3

theorem techLoop_hosts (url : String) (ts : List String) (g : Graph) :
    (techLoop url ts g).hosts = g.hosts := by
  induction ts generalizing g with
  | nil => rfl
  | cons t ts ih => simpa [techLoop, techQuery] using ih (techQuery url t g)

theorem techLoop_ips (url : String) (ts : List String) (g : Graph) :
    (techLoop url ts g).ips = g.ips := by
  induction ts generalizing g with
  | nil => rfl
  | cons t ts ih => simpa [techLoop, techQuery] using ih (techQuery url t g)

theorem techLoop_resolvesTo (url : String) (ts : List String) (g : Graph) :
    (techLoop url ts g).resolvesTo = g.resolvesTo := by
  induction ts generalizing g with
  | nil => rfl
  | cons t ts ih => simpa [techLoop, techQuery] using ih (techQuery url t g)

theorem techLoop_asns (url : String) (ts : List String) (g : Graph) :
    (techLoop url ts g).asns = g.asns := by
  induction ts generalizing g with
  | nil => rfl
  | cons t ts ih => simpa [techLoop, techQuery] using ih (techQuery url t g)

theorem techLoop_belongsTo (url : String) (ts : List String) (g : Graph) :
    (techLoop url ts g).belongsTo = g.belongsTo := by
  induction ts generalizing g with
  | nil => rfl
  | cons t ts ih => simpa [techLoop, techQuery] using ih (techQuery url t g)

theorem techLoop_techs (url : String) (ts : List String) (g : Graph) :
    (techLoop url ts g).techs = insertAll ts g.techs := by
  induction ts generalizing g with
  | nil => rfl
  | cons t ts ih =>
      simpa [techLoop, techQuery, insertAll] using ih (techQuery url t g)

theorem techLoop_uses (url : String) (ts : List String) (g : Graph) :
    (techLoop url ts g).uses
      = insertAll (ts.map fun t => (url, t)) g.uses := by
  induction ts generalizing g with
  | nil => rfl
  | cons t ts ih =>
      simpa [techLoop, techQuery, insertAll] using ih (techQuery url t g)

theorem processRecord_hosts (r : HttpxResult) (g : Graph) :
    (processRecord r g).hosts = upsertAssoc r.URL (hostProps r) g.hosts := by
  by_cases h : r.asn.ASNumber = "" <;>
    simp [processRecord, h, asnQuery, techLoop_hosts, ipQuery, hostQuery]

theorem processRecord_ips (r : HttpxResult) (g : Graph) :
    (processRecord r g).ips = insertNew r.Host g.ips := by
  by_cases h : r.asn.ASNumber = "" <;>
    simp [processRecord, h, asnQuery, techLoop_ips, ipQuery, hostQuery]

theorem processRecord_resolvesTo (r : HttpxResult) (g : Graph) :
    (processRecord r g).resolvesTo
      = insertNew (r.URL, r.Host) g.resolvesTo := by
  by_cases h : r.asn.ASNumber = "" <;>
    simp [processRecord, h, asnQuery, techLoop_resolvesTo, ipQuery, hostQuery]

theorem processRecord_techs (r : HttpxResult) (g : Graph) :
    (processRecord r g).techs = insertAll r.Tech g.techs := by
  by_cases h : r.asn.ASNumber = "" <;>
    simp [processRecord, h, asnQuery, techLoop_techs, ipQuery, hostQuery]

theorem processRecord_uses (r : HttpxResult) (g : Graph) :
    (processRecord r g).uses
      = insertAll (r.Tech.map fun t => (r.URL, t)) g.uses := by
  by_cases h : r.asn.ASNumber = "" <;>
    simp [processRecord, h, asnQuery, techLoop_uses, ipQuery, hostQuery]

theorem processRecord_asns (r : HttpxResult) (g : Graph) :
    (processRecord r g).asns
      = if r.asn.ASNumber ≠ "" then
          upsertAssoc r.asn.ASNumber ⟨r.asn.ASName, r.asn.ASCountry⟩ g.asns
        else g.asns := by
  by_cases h : r.asn.ASNumber = "" <;>
    simp [processRecord, h, asnQuery, techLoop_asns, ipQuery, hostQuery]

theorem processRecord_belongsTo (r : HttpxResult) (g : Graph) :
    (processRecord r g).belongsTo
      = if r.asn.ASNumber ≠ "" then
          insertNew (r.URL, r.asn.ASNumber) g.belongsTo
        else g.belongsTo := by
  by_cases h : r.asn.ASNumber = "" <;>
    simp [processRecord, h, asnQuery, techLoop_belongsTo, ipQuery, hostQuery]

theorem processRecord_resolvesTo_mono (r : HttpxResult) {g : Graph}
    {a : String × String} (h : a ∈ g.resolvesTo) :
    a ∈ (processRecord r g).resolvesTo := by
  rw [processRecord_resolvesTo]; exact mem_insertNew_of_mem _ h

theorem processRecord_uses_mono (r : HttpxResult) {g : Graph}
    {a : String × String} (h : a ∈ g.uses) :
    a ∈ (processRecord r g).uses := by
  rw [processRecord_uses]; exact mem_insertAll_of_mem _ h

theorem processRecord_belongsTo_mono (r : HttpxResult) {g : Graph}
    {a : String × String} (h : a ∈ g.belongsTo) :
    a ∈ (processRecord r g).belongsTo := by
  rw [processRecord_belongsTo]
  by_cases hn : r.asn.ASNumber = ""
  · simpa [hn] using h
  · simpa [hn] using mem_insertNew_of_mem _ h

/-- The empty graph store, the state before any record is processed. -/
def emptyGraph : Graph := ⟨[], [], [], [], [], [], []⟩

/-- The end-to-end sample record of the spec: url https://a.example,
host 1.2.3.4, tech nginx, ASN AS123 ExampleNet US, status 200. -/
def sampleRec : HttpxResult :=
  ⟨"", ⟨"AS123", "ExampleNet", "US", []⟩, "443", "https://a.example",
   "a.example", "A title", "https", "nginx", ["nginx"], "1.2.3.4",
   200, 10, 5, []⟩

/-- A second record for the same URL with different attribute values,
a different IP, a different technology and an empty AS number. -/
def sampleRecB : HttpxResult :=
  ⟨"", ⟨"", "", "", []⟩, "80", "https://a.example",
   "a.example", "Other title", "http", "apache", ["apache"], "5.6.7.8",
   301, 7, 3, []⟩

/-- A record whose technology list holds a duplicate name. -/
def dupTechRec : HttpxResult :=
  ⟨"", ⟨"", "", "", []⟩, "443", "https://dup.example",
   "dup.example", "", "https", "", ["nginx", "nginx"], "9.9.9.9",
   200, 1, 1, []⟩

/-- C1: processing the same record twice in sequence leaves the graph
state identical to processing it once; the mapper upserts are a no-op
on the second run. -/
theorem processRecord_idempotent (r : HttpxResult) (g : Graph) :
    processRecord r (processRecord r g) = processRecord r g := by
  refine Graph.ext ?_ ?_ ?_ ?_ ?_ ?_ ?_
  · rw [processRecord_hosts, processRecord_hosts, upsertAssoc_idem]
  · rw [processRecord_ips, processRecord_ips, insertNew_idem]
  · rw [processRecord_techs, processRecord_techs, insertAll_idem]
  · rw [processRecord_asns, processRecord_asns]
    by_cases h : r.asn.ASNumber = "" <;> simp [h, upsertAssoc_idem]
  · rw [processRecord_resolvesTo, processRecord_resolvesTo, insertNew_idem]
  · rw [processRecord_uses, processRecord_uses, insertAll_idem]
  · rw [processRecord_belongsTo, processRecord_belongsTo]
    by_cases h : r.asn.ASNumber = "" <;> simp [h, insertNew_idem]

/-- C2: the ASN node and the BELONGS_TO edge are written exactly when
the AS number of the record is non-empty; an empty AS number changes
neither the ASN nodes nor the BELONGS_TO edges. -/
theorem asnNode_iff_nonempty (r : HttpxResult) (g : Graph) :
    (r.asn.ASNumber = "" →
        (processRecord r g).asns = g.asns ∧
        (processRecord r g).belongsTo = g.belongsTo) ∧
    (r.asn.ASNumber ≠ "" →
        (r.asn.ASNumber, (⟨r.asn.ASName, r.asn.ASCountry⟩ : AsnProps))
            ∈ (processRecord r g).asns ∧
        (r.URL, r.asn.ASNumber) ∈ (processRecord r g).belongsTo) := by
  constructor
  · intro h
    rw [processRecord_asns, processRecord_belongsTo]
    simp [h]
  · intro h
    rw [processRecord_asns, processRecord_belongsTo, if_pos h, if_pos h]
    exact ⟨mem_upsertAssoc_self _ _ _, mem_insertNew_self _ _⟩

/-- Witness for C2 at the sample record of the spec scenario: the AS
number AS123 is non-empty and yields the node and the edge. -/
theorem asnNode_iff_nonempty_wit :
    ("AS123", (⟨"ExampleNet", "US"⟩ : AsnProps))
        ∈ (processRecord sampleRec emptyGraph).asns ∧
    ("https://a.example", "AS123")
        ∈ (processRecord sampleRec emptyGraph).belongsTo :=
  (asnNode_iff_nonempty sampleRec emptyGraph).2 (by decide)

/-- C3: for two records with the same URL the Host node attributes end
up equal to those of the record processed last, while the RESOLVES_TO,
USES and BELONGS_TO edges produced by both records all persist. -/
theorem sameURL_lastWins_union (r1 r2 : HttpxResult) (g : Graph)
    (h : r1.URL = r2.URL) :
    lookupKey r2.URL (processRecord r2 (processRecord r1 g)).hosts
        = some (hostProps r2) ∧
    (r2.URL, r1.Host) ∈ (processRecord r2 (processRecord r1 g)).resolvesTo ∧
    (r2.URL, r2.Host) ∈ (processRecord r2 (processRecord r1 g)).resolvesTo ∧
    (∀ t ∈ r1.Tech,
        (r2.URL, t) ∈ (processRecord r2 (processRecord r1 g)).uses) ∧
    (∀ t ∈ r2.Tech,
        (r2.URL, t) ∈ (processRecord r2 (processRecord r1 g)).uses) ∧
    (r1.asn.ASNumber ≠ "" →
        (r2.URL, r1.asn.ASNumber)
            ∈ (processRecord r2 (processRecord r1 g)).belongsTo) ∧
    (r2.asn.ASNumber ≠ "" →
        (r2.URL, r2.asn.ASNumber)
            ∈ (processRecord r2 (processRecord r1 g)).belongsTo) := by
  refine ⟨?_, ?_, ?_, ?_, ?_, ?_, ?_⟩
  · rw [processRecord_hosts]
    exact lookupKey_upsertAssoc_self _ _ _
  · refine processRecord_resolvesTo_mono r2 ?_
    rw [processRecord_resolvesTo, ← h]
    exact mem_insertNew_self _ _
  · rw [processRecord_resolvesTo]
    exact mem_insertNew_self _ _
  · intro t ht
    refine processRecord_uses_mono r2 ?_
    rw [processRecord_uses, ← h]
    exact mem_insertAll_of_mem_left _ (List.mem_map_of_mem _ ht)
  · intro t ht
    rw [processRecord_uses]
    exact mem_insertAll_of_mem_left _ (List.mem_map_of_mem _ ht)
  · intro hn
    refine processRecord_belongsTo_mono r2 ?_
    rw [processRecord_belongsTo, if_pos hn, ← h]
    exact mem_insertNew_self _ _
  · intro hn
    rw [processRecord_belongsTo, if_pos hn]
    exact mem_insertNew_self _ _

/-- Witness for C3 at two concrete records with the same URL but
different attributes: the attributes of the second record win and the
edges of both records persist. -/
theorem sameURL_lastWins_union_wit :
    lookupKey sampleRecB.URL
        (processRecord sampleRecB (processRecord sampleRec emptyGraph)).hosts
        = some (hostProps sampleRecB) ∧
    (sampleRecB.URL, sampleRec.Host)
        ∈ (processRecord sampleRecB
            (processRecord sampleRec emptyGraph)).resolvesTo ∧
    (sampleRecB.URL, sampleRecB.Host)
        ∈ (processRecord sampleRecB
            (processRecord sampleRec emptyGraph)).resolvesTo ∧
    (∀ t ∈ sampleRec.Tech,
        (sampleRecB.URL, t)
          ∈ (processRecord sampleRecB
              (processRecord sampleRec emptyGraph)).uses) ∧
    (∀ t ∈ sampleRecB.Tech,
        (sampleRecB.URL, t)
          ∈ (processRecord sampleRecB
              (processRecord sampleRec emptyGraph)).uses) ∧
    (sampleRec.asn.ASNumber ≠ "" →
        (sampleRecB.URL, sampleRec.asn.ASNumber)
          ∈ (processRecord sampleRecB
              (processRecord sampleRec emptyGraph)).belongsTo) ∧
    (sampleRecB.asn.ASNumber ≠ "" →
        (sampleRecB.URL, sampleRecB.asn.ASNumber)
          ∈ (processRecord sampleRecB
              (processRecord sampleRec emptyGraph)).belongsTo) :=
  sameURL_lastWins_union sampleRec sampleRecB emptyGraph (by decide)

/-- C4 counterexample: the hostQuery SET clause writes eight scalar
attributes (input, port, title, scheme, webserver, status, words,
lines), not seven as the claim counts them. -/
theorem hostQuerySetKeys_ne_seven : hostQuerySetKeys.length ≠ 7 := by
  decide

/-- C4 amended: upserting the Host node keyed by URL overwrites its
eight scalar attributes with the values of the record, regardless of
the previous state (last-write-wins, no merge). -/
theorem host_overwrite_lastWins (r : HttpxResult) (g : Graph) :
    lookupKey r.URL (processRecord r g).hosts = some (hostProps r) ∧
    hostQuerySetKeys.length = 8 := by
  constructor
  · rw [processRecord_hosts]
    exact lookupKey_upsertAssoc_self _ _ _
  · decide

/-- C5: in a graph whose Tech nodes and USES edges are duplicate-free,
processing a record whose technology list holds a name t (possibly
several times) leaves exactly one Tech node named t and exactly one
USES edge from the record Host to it. -/
theorem dupTech_single (r : HttpxResult) (g : Graph) (t : String)
    (hg : g.techs.Nodup) (hu : g.uses.Nodup) (ht : t ∈ r.Tech) :
    (processRecord r g).techs.count t = 1 ∧
    (processRecord r g).uses.count (r.URL, t) = 1 := by
  constructor
  · have h1 : (processRecord r g).techs.Nodup := by
      rw [processRecord_techs]; exact insertAll_nodup _ hg
    have h2 : t ∈ (processRecord r g).techs := by
      rw [processRecord_techs]; exact mem_insertAll_of_mem_left _ ht
    exact count_eq_one_of_nodup_mem h1 h2
  · have h1 : (processRecord r g).uses.Nodup := by
      rw [processRecord_uses]; exact insertAll_nodup _ hu
    have h2 : (r.URL, t) ∈ (processRecord r g).uses := by
      rw [processRecord_uses]
      exact mem_insertAll_of_mem_left _ (List.mem_map_of_mem _ ht)
    exact count_eq_one_of_nodup_mem h1 h2

/-- Witness for C5 at a record whose technology list is nginx twice,
processed into the empty graph. -/
theorem dupTech_single_wit :
    (processRecord dupTechRec emptyGraph).techs.count "nginx" = 1 ∧
    (processRecord dupTechRec emptyGraph).uses.count
        (dupTechRec.URL, "nginx") = 1 :=
  dupTech_single dupTechRec emptyGraph "nginx"
    (by decide) (by decide) (by decide)

/-- A store oracle assigns to every tx.Run call of one write
transaction, in call order, its outcome: none for success, some m for
a store failure whose driver message is m. -/
def StoreOracle : Type := Nat → Option String

/-- The always-successful store. -/
def okStore : StoreOracle := fun _ => none

/-- The techQuery for-loop with explicit tx.Run outcomes: the call at
index i runs the query for the head technology; the first failing call
aborts the loop with the Tech query error of main.go. -/
def techLoopF (f : StoreOracle) (i : Nat) (url : String)
    (ts : List String) (g : Graph) : Except String (Nat × Graph) :=
  match ts with
  | [] => .ok (i, g)
  | t :: rest =>
      match f i with
      | some m => .error ("Tech query error: " ++ m)
      | none => techLoopF f (i + 1) url rest (techQuery url t g)

/-- The body of session.WriteTransaction in main.go with explicit
tx.Run outcomes: every tx.Run call consults the store oracle in call
order; the first failing call aborts the remaining steps and returns
the error wrapped with the query name, exactly as the fmt.Errorf
wrapping in the source. -/
def processTxF (f : StoreOracle) (r : HttpxResult) (g : Graph) :
    Except String Graph :=
  match f 0 with
  | some m => .error ("Host query error: " ++ m)
  | none =>
  let g1 := hostQuery r g
  match f 1 with
  | some m => .error ("IP query error: " ++ m)
  | none =>
  let g2 := ipQuery r g1
  match techLoopF f 2 r.URL r.Tech g2 with
  | .error e => .error e
  | .ok (i, g3) =>
      if r.asn.ASNumber ≠ "" then
        match f i with
        | some m => .error ("ASN query error: " ++ m)
        | none => .ok (asnQuery r g3)
      else .ok g3

/-- One iteration of the scanner loop in main.go: decode the line, on
failure log the parse error and continue; otherwise log the URL and
run the write transaction.  Per the neo4j driver contract a
transaction function that returns an error is rolled back, so on
failure the graph is unchanged and the error is logged with the URL;
on success the new graph state is kept and the success line printed.
The log models the interleaved log and stdout lines of the program. -/
def stepLine (dec : String → Except String HttpxResult)
    (st : Graph × List String) (line : String × StoreOracle) :
    Graph × List String :=
  match dec line.1 with
  | .error e => (st.1, st.2 ++ ["Error parsing JSON: " ++ e])
  | .ok r =>
      match processTxF line.2 r st.1 with
      | .error e =>
          (st.1, st.2 ++ ["Processing URL: " ++ r.URL,
                          "Error processing " ++ r.URL ++ ": " ++ e])
      | .ok g2 =>
          (g2, st.2 ++ ["Processing URL: " ++ r.URL,
                        "Added to Neo4j: " ++ r.URL])

/-- The scanner loop of main.go: process the input lines in order,
each line paired with the store outcomes of its transaction. -/
def run (dec : String → Except String HttpxResult)
    (lines : List (String × StoreOracle)) (st : Graph × List String) :
    Graph × List String :=
  lines.foldl (stepLine dec) st

/-- An error surfaced by the transaction function is wrapped with the
name of the query that failed. -/
def taggedErr (e : String) : Prop :=
  ∃ m, e = "Host query error: " ++ m ∨ e = "IP query error: " ++ m ∨
       e = "Tech query error: " ++ m ∨ e = "ASN query error: " ++ m

theorem techLoopF_ok (i : Nat) (url : String) (ts : List String)
    (g : Graph) :
    techLoopF okStore i url ts g = .ok (i + ts.length, techLoop url ts g) := by
  induction ts generalizing i g with
  | nil => simp [techLoopF, techLoop]
  | cons t ts ih =>
      simp only [techLoopF, okStore]
      rw [ih]
      have h3 : i + 1 + ts.length = i + (t :: ts).length := by
        simp [List.length_cons]; omega
      rw [h3]
      rfl

theorem processTxF_ok (r : HttpxResult) (g : Graph) :
    processTxF okStore r g = .ok (processRecord r g) := by
  simp only [processTxF, okStore]
  rw [techLoopF_ok]
  by_cases h : r.asn.ASNumber = "" <;> simp [h, processRecord]

theorem techLoopF_error_tagged {f : StoreOracle} {i : Nat} {url e : String}
    {ts : List String} {g : Graph}
    (h : techLoopF f i url ts g = .error e) :
    ∃ m, e = "Tech query error: " ++ m := by
  induction ts generalizing i g with
  | nil => simp [techLoopF] at h
  | cons t ts ih =>
      simp only [techLoopF] at h
      cases hf : f i with
      | some m =>
          rw [hf] at h
          simp only [Except.error.injEq] at h
          exact ⟨m, h.symm⟩
      | none =>
          rw [hf] at h
          exact ih h

theorem processTxF_error_tagged {f : StoreOracle} {r : HttpxResult}
    {g : Graph} {e : String} (h : processTxF f r g = .error e) :
    taggedErr e := by
  simp only [processTxF] at h
  cases h0 : f 0 with
  | some m =>
      rw [h0] at h
      simp only [Except.error.injEq] at h
      exact ⟨m, Or.inl h.symm⟩
  | none =>
  rw [h0] at h
  cases h1 : f 1 with
  | some m =>
      rw [h1] at h
      simp only [Except.error.injEq] at h
      exact ⟨m, Or.inr (Or.inl h.symm)⟩
  | none =>
  rw [h1] at h
  cases ht : techLoopF f 2 r.URL r.Tech (ipQuery r (hostQuery r g)) with
  | error e2 =>
      rw [ht] at h
      simp only [Except.error.injEq] at h
      obtain ⟨m, hm⟩ := techLoopF_error_tagged ht
      exact ⟨m, Or.inr (Or.inr (Or.inl (h ▸ hm)))⟩
  | ok p =>
      obtain ⟨i, g3⟩ := p
      rw [ht] at h
      dsimp only at h
      by_cases ha : r.asn.ASNumber = ""
      · simp [ha] at h
      · rw [if_pos ha] at h
        cases h2 : f i with
        | some m =>
            rw [h2] at h
            simp only [Except.error.injEq] at h
            exact ⟨m, Or.inr (Or.inr (Or.inr h.symm))⟩
        | none =>
            rw [h2] at h
            simp at h

/-- C6: a malformed line is logged and skipped without aborting the
run, and a following well-formed line is still fully decoded and
processed through the mapper. -/
theorem malformed_then_wellformed
    (dec : String → Except String HttpxResult) (b w e : String)
    (r : HttpxResult) (g : Graph) (log : List String)
    (hb : dec b = .error e) (hw : dec w = .ok r) :
    run dec [(b, okStore), (w, okStore)] (g, log) =
      (processRecord r g,
       log ++ ["Error parsing JSON: " ++ e, "Processing URL: " ++ r.URL,
               "Added to Neo4j: " ++ r.URL]) := by
  simp [run, stepLine, hb, hw, processTxF_ok]

/-- A concrete decoder instance used by the witnesses: one well-formed
line decoding to the sample record, all other lines malformed. -/
def decWit : String → Except String HttpxResult :=
  fun s => if s = "good" then .ok sampleRec else .error "invalid character"

/-- Witness for C6: the malformed line bad followed by the well-formed
line good; the good line is fully processed into the graph. -/
theorem malformed_then_wellformed_wit :
    run decWit [("bad", okStore), ("good", okStore)] (emptyGraph, []) =
      (processRecord sampleRec emptyGraph,
       ["Error parsing JSON: invalid character",
        "Processing URL: " ++ sampleRec.URL,
        "Added to Neo4j: " ++ sampleRec.URL]) :=
  malformed_then_wellformed decWit "bad" "good" "invalid character"
    sampleRec emptyGraph [] rfl rfl

/-- C7: when a tx.Run call of the transaction for a record fails, the
surfaced error is tagged with the query that failed, the unit of work
is rolled back leaving the graph unchanged (no partial writes), the
error is logged together with the URL being processed, and the run
continues with the remaining lines. -/
theorem upsertFailure_recovery
    (dec : String → Except String HttpxResult) (s e : String)
    (f : StoreOracle) (r : HttpxResult) (g : Graph) (log : List String)
    (rest : List (String × StoreOracle))
    (hdec : dec s = .ok r) (hfail : processTxF f r g = .error e) :
    run dec ((s, f) :: rest) (g, log) =
      run dec rest
        (g, log ++ ["Processing URL: " ++ r.URL,
                    "Error processing " ++ r.URL ++ ": " ++ e]) ∧
    taggedErr e := by
  constructor
  · simp [run, stepLine, hdec, hfail]
  · exact processTxF_error_tagged hfail

/-- A store on which every tx.Run call fails with the message boom. -/
def failStore : StoreOracle := fun _ => some "boom"

/-- Witness for C7: the first tx.Run call (the Host query) fails; the
graph stays empty, the log carries the URL and the Host query tag, and
the run continues (with no remaining lines). -/
theorem upsertFailure_recovery_wit :
    run decWit [("good", failStore)] (emptyGraph, []) =
      run decWit []
        (emptyGraph,
         ["Processing URL: " ++ sampleRec.URL,
          "Error processing " ++ sampleRec.URL ++ ": " ++
            "Host query error: boom"]) ∧
    taggedErr "Host query error: boom" :=
  upsertFailure_recovery decWit "good" "Host query error: boom" failStore
    sampleRec emptyGraph [] [] rfl rfl

/-- C8 amended: a line on which decoding fails is signalled with the
underlying parse failure description; the caller logs exactly that
description (the offending line content is not part of the log entry)
and continues with the next lines on the unchanged graph. -/
theorem decodeError_description_logged
    (dec : String → Except String HttpxResult) (s e : String) (g : Graph)
    (log : List String) (rest : List (String × StoreOracle))
    (h : dec s = .error e) :
    run dec ((s, okStore) :: rest) (g, log) =
      run dec rest (g, log ++ ["Error parsing JSON: " ++ e]) := by
  simp [run, stepLine, h]

/-- Witness for C8 amended at the concrete decoder and the line bad. -/
theorem decodeError_description_logged_wit :
    run decWit [("bad", okStore)] (emptyGraph, []) =
      run decWit [] (emptyGraph, ["Error parsing JSON: invalid character"]) :=
  decodeError_description_logged decWit "bad" "invalid character"
    emptyGraph [] [] rfl

/-- Modelled from the behavior of Go encoding/json, the decoder the
repository calls but does not define: Unmarshal reports a description
of the parse failure and does not embed the input line; in particular
both the line \x7b and the line [ yield the message unexpected end of
JSON input. -/
def decDemo : String → Except String HttpxResult :=
  fun s =>
    if s = "\x7b" ∨ s = "[" then .error "unexpected end of JSON input"
    else .error "invalid character"

/-- C8 counterexample: two distinct malformed lines yield identical
decode errors and identical log entries, and the entry for the line
holding one opening brace does not even contain that character; the
signalled DecodeError therefore does not carry the offending line
content, only the parse failure description. -/
theorem decodeError_lacks_line_content :
    ("\x7b" : String) ≠ "[" ∧
    (stepLine decDemo (emptyGraph, []) ("\x7b", okStore)).2
      = (stepLine decDemo (emptyGraph, []) ("[", okStore)).2 ∧
    ¬ '\x7b' ∈ ("Error parsing JSON: unexpected end of JSON input").toList := by
  decide

/-- The Host node attributes written by the hostQuery of the earlier
main.go variant: the same eight scalar attributes and one additional
attribute neo4j_label, set by a second SET clause to the url
parameter. -/
structure HostPropsV2 where
  input : String
  port : String
  title : String
  scheme : String
  webserver : String
  status : Int
  words : Int
  lines : Int
  neo4j_label : String
deriving DecidableEq, Repr

/-- Effect of the variant hostQuery: MERGE the Host node by url, SET
the eight scalar attributes from the record, then SET neo4j_label to
the url parameter. -/
def hostQueryV2 (r : HttpxResult) (l : List (String × HostPropsV2)) :
    List (String × HostPropsV2) :=
  upsertAssoc r.URL
    ⟨r.Input, r.Port, r.Title, r.Scheme, r.Webserver, r.Status, r.Words,
     r.Lines, r.URL⟩ l

/-- C9 counterexample: in the variant, upserting a record whose title
differs from its URL leaves the Host title attribute equal to the
record title field, not to the URL. -/
theorem v2_title_not_url :
    (lookupKey sampleRec.URL (hostQueryV2 sampleRec [])).map
        HostPropsV2.title = some "A title" ∧
    ¬ (lookupKey sampleRec.URL (hostQueryV2 sampleRec [])).map
        HostPropsV2.title = some sampleRec.URL := by
  decide

/-- C9 amended: the variant host upsert keeps the record title field
in the title attribute and writes the URL value into the additional
neo4j_label attribute. -/
theorem v2_label_is_url (r : HttpxResult)
    (l : List (String × HostPropsV2)) :
    (lookupKey r.URL (hostQueryV2 r l)).map HostPropsV2.title
      = some r.Title ∧
    (lookupKey r.URL (hostQueryV2 r l)).map HostPropsV2.neo4j_label
      = some r.URL := by
  have h := lookupKey_upsertAssoc_self r.URL
    (⟨r.Input, r.Port, r.Title, r.Scheme, r.Webserver, r.Status, r.Words,
      r.Lines, r.URL⟩ : HostPropsV2) l
  constructor <;> simp [hostQueryV2, h]

/-- C10: for every record, also one whose Host field is the empty
string, the mapper unconditionally upserts the IP node keyed by that
field and the RESOLVES_TO edge; there is no non-empty guard. -/
theorem ip_unconditional (r : HttpxResult) (g : Graph) :
    r.Host ∈ (processRecord r g).ips ∧
    (r.URL, r.Host) ∈ (processRecord r g).resolvesTo := by
  rw [processRecord_ips, processRecord_resolvesTo]
  exact ⟨mem_insertNew_self _ _, mem_insertNew_self _ _⟩

end JsonToNeo
